import Mathlib

/-!
Verification of the `bitcoin-quantity` value type (`src/src/lib.rs`).

The Rust type `BitcoinQuantity(u64)` stores a satoshi count.  Several of its
operations route through IEEE-754 binary64 (`f64`) arithmetic, so we first
build an exact model of the `f64` values and operations the library uses:
a finite double is an exactly-representable rational, and every operation
rounds its exact rational result to the nearest representable double
(round-to-nearest, ties-to-even), with overflow to infinity and with the
saturating `as u64` cast semantics of Rust.
-/

/-- Integer power of a natural base with an integer exponent, as a rational
(used for `2^e`, `10^e`; the natural-number power keeps reduction shallow). -/
def qpow (b : ℕ) (e : ℤ) : ℚ :=
  if 0 ≤ e then ((b ^ e.toNat : ℕ) : ℚ) else (((b ^ (-e).toNat : ℕ) : ℚ))⁻¹

/-- Round a rational to the nearest integer, ties to even
(the IEEE-754 default rounding used by every Rust float operation). -/
def rne (q : ℚ) : ℤ :=
  if q - ⌊q⌋ < 1/2 then ⌊q⌋
  else if (1:ℚ)/2 < q - ⌊q⌋ then ⌊q⌋ + 1
  else if ⌊q⌋ % 2 = 0 then ⌊q⌋ else ⌊q⌋ + 1

/-- Round a rational to the nearest integer, ties away from zero
(the semantics of Rust's `f64::round`). -/
def rha (q : ℚ) : ℤ :=
  if q < 0 then -⌊-q + 1/2⌋ else ⌊q + 1/2⌋

/-- Binary exponent search: for positive `q` returns `e` with `2^e ≤ q < 2^(e+1)`
(fuel-bounded; the fuel covers the whole double range and far beyond). -/
def findExp2 : ℕ → ℚ → ℤ → ℤ
  | 0, _, e => e
  | fuel+1, q, e =>
    if q < 1 then findExp2 fuel (2 * q) (e - 1)
    else if 2 ≤ q then findExp2 fuel (q / 2) (e + 1)
    else e

/-- The binary scale of the double window holding a positive rational:
its binary exponent minus 52, clamped below at the subnormal limit `-1074`. -/
def dscale (q : ℚ) : ℤ :=
  max (findExp2 4400 q 0 - 52) (-1074)

/-- Round a positive rational to the nearest binary64 value (as an exact
rational): scale into the 53-bit significand window (clamped at the
subnormal limit `2^-1074`) and round the significand to nearest-even. -/
def roundDoublePos (q : ℚ) : ℚ :=
  (rne (q * qpow 2 (-dscale q)) : ℚ) * qpow 2 (dscale q)

/-- Round any rational to the nearest binary64 value (sign-symmetric). -/
def roundDouble (q : ℚ) : ℚ :=
  if q < 0 then -roundDoublePos (-q)
  else if q = 0 then 0
  else roundDoublePos q

/-- The largest finite binary64 value, `(2^53 - 1) · 2^971`. -/
def maxF : ℚ := (((2 ^ 53 - 1) * 2 ^ 971 : ℕ) : ℚ)

/-- Decidable equality for `Except`, used to state parse results. -/
instance {ε α : Type} [DecidableEq ε] [DecidableEq α] : DecidableEq (Except ε α) :=
  fun a b =>
    match a, b with
    | Except.ok x, Except.ok y =>
      if h : x = y then Decidable.isTrue (by rw [h])
      else Decidable.isFalse (fun hc => h (Except.ok.inj hc))
    | Except.error e, Except.error f =>
      if h : e = f then Decidable.isTrue (by rw [h])
      else Decidable.isFalse (fun hc => h (Except.error.inj hc))
    | Except.ok _, Except.error _ => Decidable.isFalse (fun hc => Except.noConfusion hc)
    | Except.error _, Except.ok _ => Decidable.isFalse (fun hc => Except.noConfusion hc)

/-- A 64-bit IEEE-754 float: an exactly-representable finite rational,
an infinity (`inf true` is `-∞`), or NaN. -/
inductive F64 where
  | finite (val : ℚ)
  | inf (neg : Bool)
  | nan
  deriving DecidableEq

/-- Round an exact rational result to an `F64`, overflowing to infinity
exactly when the rounded value exceeds the largest finite double. -/
def roundF (q : ℚ) : F64 :=
  if maxF < roundDouble q then F64.inf false
  else if roundDouble q < -maxF then F64.inf true
  else F64.finite (roundDouble q)

/-- IEEE-754 binary64 multiplication (model of Rust `f64 * f64`). -/
def fmul : F64 → F64 → F64
  | F64.nan, _ => F64.nan
  | _, F64.nan => F64.nan
  | F64.inf s, F64.inf t => F64.inf (xor s t)
  | F64.inf s, F64.finite q =>
    if q = 0 then F64.nan else F64.inf (xor s (decide (q < 0)))
  | F64.finite q, F64.inf t =>
    if q = 0 then F64.nan else F64.inf (xor (decide (q < 0)) t)
  | F64.finite a, F64.finite b => roundF (a * b)

/-- IEEE-754 binary64 division (model of Rust `f64 / f64`; signed zeros are
conflated with `0`, which is invisible to every operation this library uses). -/
def fdiv : F64 → F64 → F64
  | F64.nan, _ => F64.nan
  | _, F64.nan => F64.nan
  | F64.inf _, F64.inf _ => F64.nan
  | F64.inf s, F64.finite q => F64.inf (xor s (decide (q < 0)))
  | F64.finite _, F64.inf _ => F64.finite 0
  | F64.finite a, F64.finite b =>
    if b = 0 then (if a = 0 then F64.nan else F64.inf (xor (decide (a < 0)) (decide (b < 0))))
    else roundF (a / b)

/-- Model of Rust `f64::round`: round to the nearest integer, ties away from
zero.  Every integer produced this way from a finite double is itself exactly
representable, so no re-rounding occurs. -/
def fround : F64 → F64
  | F64.finite q => F64.finite ((rha q : ℤ) : ℚ)
  | x => x

/-- Model of Rust's `u64 as f64` cast: round to nearest, ties to even
(every `u64` is far inside the finite double range). -/
def u64ToF64 (n : ℕ) : F64 :=
  F64.finite (roundDouble (n : ℚ))

/-- Model of Rust's saturating `f64 as u64` cast (Rust ≥ 1.45): truncate
toward zero, clamp to `[0, 2^64 - 1]`, NaN to `0`. -/
def f64ToU64 : F64 → ℕ
  | F64.nan => 0
  | F64.inf false => 18446744073709551615
  | F64.inf true => 0
  | F64.finite q =>
    if q ≤ 0 then 0
    else if (18446744073709551616 : ℚ) ≤ q then 18446744073709551615
    else (⌊q⌋).toNat

/-! ## The `BitcoinQuantity` value type

`BitcoinQuantity(u64)` is modelled as a natural number `< 2^64`. -/

/-- `BitcoinQuantity::from_satoshi(sats)`: wraps the satoshi count verbatim. -/
def from_satoshi (sats : ℕ) : ℕ := sats

/-- `BitcoinQuantity::satoshi(self)`: returns the stored count unchanged. -/
def satoshi (q : ℕ) : ℕ := q

/-- `BitcoinQuantity::from_bitcoin(btc)`: `(btc * 100_000_000.0).round() as u64`. -/
def from_bitcoin (btc : F64) : ℕ :=
  f64ToU64 (fround (fmul btc (F64.finite 100000000)))

/-- `BitcoinQuantity::bitcoin(self)`: `(self.0 as f64) / 100_000_000.0`. -/
def bitcoin (q : ℕ) : F64 :=
  fdiv (u64ToF64 q) (F64.finite 100000000)

/-- `impl Add for BitcoinQuantity`: `self.0 + rhs.0` on `u64`
(wrapping semantics of the release build, made explicit with `% 2^64`). -/
def addQ (a b : ℕ) : ℕ :=
  (a + b) % 18446744073709551616

/-- `impl Sub for BitcoinQuantity`: `self.0 - rhs.0` on `u64`
(wrapping semantics of the release build, made explicit with `% 2^64`). -/
def subQ (a b : ℕ) : ℕ :=
  (a + (18446744073709551616 - b)) % 18446744073709551616

/-! ## Textual parsing (`impl FromStr for BitcoinQuantity`)

The Rust code is `let dec = string.parse()?; Ok(Self::from_bitcoin(dec))`
with `dec : f64` (forced by `from_bitcoin`'s argument type); the
`ParseBigDecimalError` in the signature is only the `From`-converted wrapper
around `f64`'s parse error.  We model `f64::from_str` after its documented
grammar: `Sign? ( inf | infinity | nan | Number )` with
`Number ::= Digit+ ('.' Digit*)? | Digit* '.' Digit+`, optionally followed by
`(e|E) Sign? Digit+`, case-insensitively for the named values, with the
resulting decimal correctly rounded to the nearest double. -/

/-- Longest prefix of decimal digits of a character list, as digit values,
together with the remainder. -/
def digitsSpan : List Char → List ℕ × List Char
  | [] => ([], [])
  | c :: rest =>
    if 48 ≤ c.toNat ∧ c.toNat ≤ 57 then
      let p := digitsSpan rest
      ((c.toNat - 48) :: p.1, p.2)
    else ([], c :: rest)

/-- Value of a big-endian digit list. -/
def valBE (ds : List ℕ) : ℕ :=
  ds.foldl (fun a d => 10 * a + d) 0

/-- Model of Rust `f64::from_str` (see the section comment): `none` is
`ParseFloatError`. -/
def parseF64 (str : String) : Option F64 :=
  let p0 : Bool × List Char :=
    match str.data with
    | c :: rest =>
      if c = Char.ofNat 45 then (true, rest)
      else if c = Char.ofNat 43 then (false, rest)
      else (false, str.data)
    | [] => (false, [])
  let neg := p0.1
  let cs := p0.2
  let low := cs.map Char.toLower
  if low = [ 'i', 'n', 'f'] ∨ low = [ 'i', 'n', 'f', 'i', 'n', 'i', 't', 'y'] then
    some (F64.inf neg)
  else if low = [ 'n', 'a', 'n'] then some F64.nan
  else
    let pInt := digitsSpan cs
    let intDs := pInt.1
    let pFrac : List ℕ × List Char :=
      match pInt.2 with
      | c :: rest => if c = Char.ofNat 46 then digitsSpan rest else ([], pInt.2)
      | [] => ([], pInt.2)
    let fracDs := pFrac.1
    if intDs.isEmpty ∧ fracDs.isEmpty then none
    else
      let expPart : Option ℤ :=
        match pFrac.2 with
        | [] => some 0
        | c :: rest =>
          if c = Char.ofNat 101 ∨ c = Char.ofNat 69 then
            let pe : Bool × List Char :=
              match rest with
              | d :: r2 =>
                if d = Char.ofNat 45 then (true, r2)
                else if d = Char.ofNat 43 then (false, r2)
                else (false, rest)
              | [] => (false, [])
            let pDigs := digitsSpan pe.2
            if pDigs.1.isEmpty ∨ ¬ pDigs.2.isEmpty then none
            else some ((if pe.1 then -1 else 1) * (valBE pDigs.1 : ℤ))
          else none
      match expPart with
      | none => none
      | some e =>
        let m : ℕ := valBE (intDs ++ fracDs)
        let v : ℚ := (if neg then -1 else 1) * (m : ℚ) * qpow 10 (e - fracDs.length)
        some (roundF v)

/-- The error type of `FromStr` (the spec's `InvalidDecimalFormat`; in the
code, the float parse error `From`-converted into `ParseBigDecimalError`). -/
inductive ParseError where
  | invalidDecimalFormat
  deriving DecidableEq

/-- `impl FromStr for BitcoinQuantity`: parse the string as an `f64` and
apply `from_bitcoin`. -/
def from_str (s : String) : Except ParseError ℕ :=
  match parseF64 s with
  | some x => Except.ok (from_bitcoin x)
  | none => Except.error ParseError.invalidDecimalFormat

/-! ## Formatting (`impl Display for BitcoinQuantity`)

`write!(f, "{} BTC", self.bitcoin())`.  Rust's `Display` for `f64` prints the
shortest decimal representation that parses back to the same double (never in
exponent form), so `1.0` prints as `1` and integral values carry no decimal
point.  We model it by searching for the least number of significant decimal
digits whose nearest-rounded candidate round-trips through `roundDouble`. -/

/-- Decimal exponent search: for positive `q` returns `t` with
`10^t ≤ q < 10^(t+1)` (fuel-bounded). -/
def findExp10 : ℕ → ℚ → ℤ → ℤ
  | 0, _, t => t
  | fuel+1, q, t =>
    if q < 1 then findExp10 fuel (10 * q) (t - 1)
    else if 10 ≤ q then findExp10 fuel (q / 10) (t + 1)
    else t

/-- Little-endian decimal digits of a natural number (fuel-bounded; any
`fuel > n` is enough). -/
def natDigitsRevLE : ℕ → ℕ → List ℕ
  | 0, _ => []
  | fuel+1, n => if n < 10 then [n] else n % 10 :: natDigitsRevLE fuel (n / 10)

/-- The character of a decimal digit. -/
def digitChar (d : ℕ) : Char := Char.ofNat (48 + d)

/-- Decimal digit characters of a natural number, most significant first. -/
def natReprL (n : ℕ) : List Char :=
  (natDigitsRevLE (n + 1) n).reverse.map digitChar

/-- Decimal-digit string of a natural number (model of Rust `u64::to_string`). -/
def natRepr (n : ℕ) : String := String.mk (natReprL n)

/-- Search, for `n = 1, 2, ...` significant digits, for the shortest decimal
`d · 10^s` that rounds back to the double `q` (with `10^t ≤ q < 10^(t+1)`);
returns the digits `d` and scale `s`. -/
def shortestFrom (q : ℚ) (t : ℤ) : ℕ → ℕ → ℕ × ℤ
  | 0, _ => (0, 0)
  | fuel+1, n =>
    let s : ℤ := t - n + 1
    let d : ℤ := rne (q * qpow 10 (-s))
    if roundDouble ((d : ℚ) * qpow 10 s) = q then (d.toNat, s)
    else shortestFrom q t fuel (n + 1)

/-- Strip trailing zero digits of `d`, moving them into the scale. -/
def stripZeros : ℕ → ℕ → ℤ → ℕ × ℤ
  | 0, d, s => (d, s)
  | fuel+1, d, s =>
    if 10 ≤ d ∧ d % 10 = 0 then stripZeros fuel (d / 10) (s + 1) else (d, s)

/-- Render `d · 10^s` (`d` a digit block) as a plain decimal string. -/
def formatDec (d : ℕ) (s : ℤ) : String :=
  let ds := natReprL d
  if 0 ≤ s then String.mk (ds ++ List.replicate s.toNat (Char.ofNat 48))
  else
    let k := (-s).toNat
    if k < ds.length then
      String.mk (ds.take (ds.length - k) ++ Char.ofNat 46 :: ds.drop (ds.length - k))
    else
      String.mk (Char.ofNat 48 :: Char.ofNat 46 :: List.replicate (k - ds.length) (Char.ofNat 48) ++ ds)

/-- Shortest round-trip decimal rendering of a positive double `q`. -/
def displayPos (q : ℚ) : String :=
  let t := findExp10 1400 q 0
  let p := shortestFrom q t 40 1
  let p2 := stripZeros 40 p.1 p.2
  formatDec p2.1 p2.2

/-- Model of Rust's `Display` for `f64` (shortest round-trip decimal form). -/
def displayF64 : F64 → String
  | F64.nan => "NaN"
  | F64.inf false => "inf"
  | F64.inf true => "-inf"
  | F64.finite q =>
    if q = 0 then "0"
    else if q < 0 then "-" ++ displayPos (-q)
    else displayPos q

/-- `impl Display for BitcoinQuantity`: `"{} BTC"` applied to `bitcoin()`. -/
def display (q : ℕ) : String :=
  displayF64 (bitcoin q) ++ " BTC"

/-! ## Structured serialization (the `serde` feature)

`Serialize` emits `self.0.to_string()` through `serialize_str`;
`Deserialize` reads a string with a visitor whose `visit_str` parses the
string as a `u64` (`v.parse()`) and applies `from_satoshi`, turning the
integer-parse failure into a custom error (the spec's
`InvalidSmallestUnitFormat`).  The structured data model is represented by
`JsonValue`; `renderJson` is the JSON text of a value (string contents here
are always digit strings, so no escaping arises). -/

/-- Value of a decimal digit character, if it is one. -/
def digitVal (c : Char) : Option ℕ :=
  if 48 ≤ c.toNat ∧ c.toNat ≤ 57 then some (c.toNat - 48) else none

/-- Accumulate decimal digits left to right; fails on a non-digit. -/
def parseDigitsAux : List Char → ℕ → Option ℕ
  | [], a => some a
  | c :: cs, a =>
    match digitVal c with
    | some d => parseDigitsAux cs (10 * a + d)
    | none => none

/-- Strip one leading `+` (allowed by Rust's unsigned-integer parser). -/
def stripPlus (l : List Char) : List Char :=
  match l with
  | c :: rest => if c = Char.ofNat 43 then rest else l
  | [] => l

/-- Model of Rust `u64::from_str`: an optional `+`, then one or more decimal
digits, value below `2^64`; anything else fails. -/
def parseU64 (s : String) : Option ℕ :=
  if (stripPlus s.data).isEmpty then none
  else
    (parseDigitsAux (stripPlus s.data) 0).bind
      (fun v => if v < 18446744073709551616 then some v else none)

/-- A structured-serialization value (the fragment of the serde data model
this library touches). -/
inductive JsonValue where
  | str (s : String)
  | num (n : ℤ)
  deriving DecidableEq

/-- Deserialization errors: the spec's `InvalidSmallestUnitFormat` (integer
parse failure inside `visit_str`) and the framework's invalid-type error for
non-string input to `deserialize_str`. -/
inductive DeError where
  | invalidSmallestUnitFormat
  | invalidType
  deriving DecidableEq

/-- `impl Serialize for BitcoinQuantity`:
`serializer.serialize_str(self.0.to_string().as_str())`. -/
def serialize (q : ℕ) : JsonValue :=
  JsonValue.str (natRepr q)

/-- `impl Deserialize for BitcoinQuantity` (the visitor's `visit_str`):
parse the string as a `u64` and construct via `from_satoshi`. -/
def deserialize : JsonValue → Except DeError ℕ
  | JsonValue.str s =>
    match parseU64 s with
    | some v => Except.ok (from_satoshi v)
    | none => Except.error DeError.invalidSmallestUnitFormat
  | JsonValue.num _ => Except.error DeError.invalidType

/-- JSON text of a structured value (digit-string contents need no escaping). -/
def renderJson : JsonValue → String
  | JsonValue.str s => "\"" ++ s ++ "\""
  | JsonValue.num n => if n < 0 then "-" ++ natRepr (-n).toNat else natRepr n.toNat

/-! ## The claim C4 grammar

C4 describes the accepted inputs as "an optionally signed integer part with
an optional fractional part"; this definition follows those words (and only
them) so the claim can be compared with the code's actual parser. -/

/-- The decimal grammar exactly as claim C4 words it: optional sign, a
nonempty integer digit part, optionally a dot and a nonempty fraction part. -/
def specSimpleDecimal (s : String) : Bool :=
  let cs : List Char :=
    match s.data with
    | c :: rest =>
      if c = Char.ofNat 45 ∨ c = Char.ofNat 43 then rest else s.data
    | [] => []
  let pInt := digitsSpan cs
  match pInt.2 with
  | [] => ¬ pInt.1.isEmpty
  | c :: rest =>
    if c = Char.ofNat 46 then
      let pFrac := digitsSpan rest
      ¬ pInt.1.isEmpty && ¬ pFrac.1.isEmpty && pFrac.2.isEmpty
    else false

/-! ## Helper lemmas -/

theorem qpow_pos (b : ℕ) (hb : 0 < b) (e : ℤ) : 0 < qpow b e := by
  unfold qpow
  have h1 : ∀ n : ℕ, (0:ℚ) < ((b ^ n : ℕ) : ℚ) :=
    fun n => by exact_mod_cast pow_pos hb n
  split
  · exact h1 _
  · exact inv_pos.mpr (h1 _)

theorem rne_nonneg (q : ℚ) (h : 0 ≤ q) : 0 ≤ rne q := by
  have hf : (0:ℤ) ≤ ⌊q⌋ := Int.floor_nonneg.mpr h
  unfold rne
  split_ifs <;> omega

theorem roundDoublePos_nonneg (q : ℚ) (h : 0 ≤ q) : 0 ≤ roundDoublePos q := by
  unfold roundDoublePos
  have h1 : 0 < qpow 2 (-dscale q) := qpow_pos 2 (by norm_num) _
  have h2 : 0 < qpow 2 (dscale q) := qpow_pos 2 (by norm_num) _
  have h3 : (0:ℤ) ≤ rne (q * qpow 2 (-dscale q)) :=
    rne_nonneg _ (mul_nonneg h h1.le)
  have h4 : (0:ℚ) ≤ (rne (q * qpow 2 (-dscale q)) : ℚ) := by exact_mod_cast h3
  exact mul_nonneg h4 h2.le

theorem roundDouble_nonpos (q : ℚ) (h : q ≤ 0) : roundDouble q ≤ 0 := by
  unfold roundDouble
  split_ifs with h1 h2
  · have := roundDoublePos_nonneg (-q) (by linarith)
    linarith
  · exact le_refl 0
  · exact absurd (h.lt_of_ne h2) h1

theorem rha_nonpos (q : ℚ) (h : q ≤ 0) : rha q ≤ 0 := by
  unfold rha
  split_ifs with h1
  · have : (0:ℤ) ≤ ⌊-q + 1/2⌋ := Int.floor_nonneg.mpr (by linarith)
    omega
  · have hq : q = 0 := le_antisymm h (not_lt.mp h1)
    subst hq
    norm_num

theorem maxF_pos : (0:ℚ) < maxF := by
  unfold maxF
  norm_num

theorem natDigitsRevLE_lt10 : ∀ fuel n d, d ∈ natDigitsRevLE fuel n → d < 10 := by
  intro fuel
  induction fuel with
  | zero => intro n d hd; simp [natDigitsRevLE] at hd
  | succ fuel ih =>
    intro n d hd
    unfold natDigitsRevLE at hd
    split at hd
    · simp at hd; omega
    · rcases List.mem_cons.mp hd with h1 | h2
      · omega
      · exact ih _ _ h2

theorem natDigitsRevLE_ne_nil (fuel n : ℕ) : natDigitsRevLE (fuel + 1) n ≠ [] := by
  unfold natDigitsRevLE
  split <;> simp

theorem foldrVal_natDigitsRevLE :
    ∀ fuel n, n < fuel →
      (natDigitsRevLE fuel n).foldr (fun d acc => d + 10 * acc) 0 = n := by
  intro fuel
  induction fuel with
  | zero => omega
  | succ fuel ih =>
    intro n hn
    unfold natDigitsRevLE
    split
    · simp
    · rename_i hge
      have hdiv : n / 10 < fuel := by omega
      simp only [List.foldr_cons, ih (n / 10) hdiv]
      omega

theorem foldl_reverse_val (l : List ℕ) (a : ℕ) :
    l.reverse.foldl (fun x d => 10 * x + d) a =
      a * 10 ^ l.length + l.foldr (fun d acc => d + 10 * acc) 0 := by
  induction l generalizing a with
  | nil => simp
  | cons d t ih =>
    simp only [List.reverse_cons, List.foldl_append, List.foldl_cons, List.foldl_nil,
      List.foldr_cons, List.length_cons, ih]
    ring

theorem digitVal_digitChar (d : ℕ) (h : d < 10) : digitVal (digitChar d) = some d := by
  interval_cases d <;> decide

theorem digitChar_ne_plus (d : ℕ) (h : d < 10) : digitChar d ≠ Char.ofNat 43 := by
  interval_cases d <;> decide

theorem parseDigitsAux_map :
    ∀ ds : List ℕ, (∀ d ∈ ds, d < 10) → ∀ a : ℕ,
      parseDigitsAux (ds.map digitChar) a =
        some (ds.foldl (fun x d => 10 * x + d) a) := by
  intro ds
  induction ds with
  | nil => intro _ a; simp [parseDigitsAux]
  | cons d t ih =>
    intro h a
    have hd : d < 10 := h d (List.mem_cons_self d t)
    simp only [List.map_cons, parseDigitsAux, digitVal_digitChar d hd, List.foldl_cons]
    exact ih (fun x hx => h x (List.mem_cons_of_mem d hx)) (10 * a + d)

theorem parseU64_natRepr (n : ℕ) (h : n < 18446744073709551616) :
    parseU64 (natRepr n) = some n := by
  have hrevne : (natDigitsRevLE (n + 1) n).reverse ≠ [] := by
    simpa using natDigitsRevLE_ne_nil n n
  obtain ⟨d, t, ht⟩ := List.exists_cons_of_ne_nil hrevne
  have hd10 : ∀ x ∈ (natDigitsRevLE (n + 1) n).reverse, x < 10 :=
    fun x hx => natDigitsRevLE_lt10 _ _ _ (List.mem_reverse.mp hx)
  have hdmem : d < 10 := hd10 d (by rw [ht]; exact List.mem_cons_self d t)
  have hdata : (natRepr n).data = List.map digitChar ((natDigitsRevLE (n + 1) n).reverse) := rfl
  have hval : parseDigitsAux (List.map digitChar ((natDigitsRevLE (n + 1) n).reverse)) 0
      = some n := by
    rw [parseDigitsAux_map _ hd10 0, foldl_reverse_val, foldrVal_natDigitsRevLE (n + 1) n (Nat.lt_succ_self n)]
    simp
  have hstrip : stripPlus ((natRepr n).data) = (natRepr n).data := by
    rw [hdata, ht, List.map_cons]
    simp only [stripPlus]
    rw [if_neg (digitChar_ne_plus d hdmem)]
  unfold parseU64
  rw [hstrip, hdata, hval, ht, List.map_cons]
  simp [h]

/-! ## The claims -/

section ClaimProofs

attribute [local semireducible] Rat.mul Rat.add Rat.sub Rat.inv

set_option maxRecDepth 100000

set_option maxHeartbeats 2000000

set_option exponentiation.threshold 1100

/-- C1: for every unsigned 64-bit integer `n`,
`from_satoshi(n).satoshi() == n` — constructing a quantity from a
smallest-unit count and reading the count back is the identity. -/
theorem c1_smallest_unit_roundtrip (n : ℕ) (h : n < 2 ^ 64) :
    satoshi (from_satoshi n) = n := rfl

/-- Witness for C1 at `n = 42`. -/
theorem c1_witness : 42 < 2 ^ 64 ∧ satoshi (from_satoshi 42) = 42 :=
  ⟨by norm_num, c1_smallest_unit_roundtrip 42 (by norm_num)⟩

/-- C2: the unit-conversion factor is `10^8` in both directions:
`from_satoshi(100_000_000).bitcoin() == 1.0` and
`from_bitcoin(1.0).satoshi() == 100_000_000`. -/
theorem c2_unit_conversion_factor :
    bitcoin (from_satoshi 100000000) = F64.finite 1 ∧
    from_bitcoin (F64.finite 1) = 100000000 := by
  constructor
  · decide
  · decide

/-- C3: parsing applies the same whole-units-to-smallest-units conversion as
`from_bitcoin`, routed through a 64-bit float: whenever the string parses as
an `f64` value `x`, `from_str` returns `from_bitcoin x`; in particular
`from_str "1.00000001"` equals `from_bitcoin` of the double nearest to the
decimal `1.00000001`. -/
theorem c3_parse_routes_through_float :
    (∀ s x, parseF64 s = some x → from_str s = Except.ok (from_bitcoin x)) ∧
    from_str "1.00000001" = Except.ok (from_bitcoin (roundF ((100000001 : ℚ) / 100000000))) := by
  refine ⟨?_, by decide⟩
  intro s x hp
  simp [from_str, hp]

/-- Witness for C3 at the string `"2"`. -/
theorem c3_witness :
    parseF64 "2" = some (F64.finite 2) ∧
    from_str "2" = Except.ok (from_bitcoin (F64.finite 2)) :=
  ⟨by decide, c3_parse_routes_through_float.1 "2" (F64.finite 2) (by decide)⟩

/-- C4, counterexample: `"1e2"` is not an optionally-signed
integer-dot-fraction decimal, yet `from_str` accepts it (Rust parses it as
the float `100.0`), returning `10^10` satoshi rather than the claimed
`InvalidDecimalFormat` error. -/
theorem c4_counterexample :
    specSimpleDecimal "1e2" = false ∧ from_str "1e2" = Except.ok 10000000000 := by
  constructor
  · decide
  · decide

/-- C4, amended: for every string that is not a valid `f64` literal (the
actual grammar, which beyond sign/integer/fraction also accepts exponent
notation and the named values `inf`/`infinity`/`nan`), `from_str` fails with
`InvalidDecimalFormat`; in particular `"abc"` fails. -/
theorem c4_invalid_float_rejected :
    (∀ s, parseF64 s = none → from_str s = Except.error ParseError.invalidDecimalFormat) ∧
    from_str "abc" = Except.error ParseError.invalidDecimalFormat := by
  refine ⟨?_, by decide⟩
  intro s hp
  simp [from_str, hp]

/-- Witness for the amended C4 at the string `"12x"`. -/
theorem c4_witness :
    parseF64 "12x" = none ∧
    from_str "12x" = Except.error ParseError.invalidDecimalFormat :=
  ⟨by decide, c4_invalid_float_rejected.1 "12x" (by decide)⟩

/-- C5: `Display` renders `bitcoin()` in the shortest round-trip decimal form
followed by `" BTC"`, dropping trailing zeros and the decimal point of
integral values: the four concrete renderings claimed by the spec. -/
theorem c5_display_shortest :
    from_str "1234.00000100" = Except.ok 123400000100 ∧
    display 123400000100 = "1234.000001 BTC" ∧
    from_str "100" = Except.ok 10000000000 ∧
    display 10000000000 = "100 BTC" ∧
    from_bitcoin (F64.finite 42) = 4200000000 ∧
    display 4200000000 = "42 BTC" ∧
    display (from_satoshi 200000000) = "2 BTC" :=
  ⟨by decide, by decide, by decide, by decide, by decide, by decide, by decide⟩

/-- C6: serialization emits the satoshi count as a decimal-digit string
(rendered in JSON with surrounding quotes, never as a bare number), and
deserializing the serialized form returns the original quantity. -/
theorem c6_serialize_roundtrip :
    (∀ n : ℕ, n < 2 ^ 64 →
      serialize n = JsonValue.str (natRepr n) ∧
      deserialize (serialize n) = Except.ok (from_satoshi n)) ∧
    renderJson (serialize 100000000) = "\"100000000\"" := by
  constructor
  · intro n hn
    have hn2 : n < 18446744073709551616 := by norm_num at hn ⊢; exact hn
    refine ⟨rfl, ?_⟩
    simp [serialize, deserialize, parseU64_natRepr n hn2]
  · decide

/-- Witness for C6 at `n = 100000000`. -/
theorem c6_witness :
    100000000 < 2 ^ 64 ∧
    deserialize (serialize 100000000) = Except.ok (from_satoshi 100000000) :=
  ⟨by norm_num, (c6_serialize_roundtrip.1 100000000 (by norm_num)).2⟩

/-- C7: deserialization accepts a string, parses it as an unsigned 64-bit
integer, constructs via `from_satoshi`, and fails with
`InvalidSmallestUnitFormat` on every string that is not a valid non-negative
64-bit integer literal, e.g. `"abc"`. -/
theorem c7_deserialize_u64_string :
    (∀ s n, parseU64 s = some n →
        deserialize (JsonValue.str s) = Except.ok (from_satoshi n)) ∧
    (∀ s, parseU64 s = none →
        deserialize (JsonValue.str s) = Except.error DeError.invalidSmallestUnitFormat) ∧
    deserialize (JsonValue.str "abc") = Except.error DeError.invalidSmallestUnitFormat := by
  refine ⟨?_, ?_, by decide⟩
  · intro s n hp
    simp [deserialize, hp]
  · intro s hp
    simp [deserialize, hp]

/-- Witness for C7 at `"123"` (success) and `"1x"` (failure). -/
theorem c7_witness :
    parseU64 "123" = some 123 ∧
    deserialize (JsonValue.str "123") = Except.ok (from_satoshi 123) ∧
    parseU64 "1x" = none ∧
    deserialize (JsonValue.str "1x") = Except.error DeError.invalidSmallestUnitFormat :=
  ⟨by decide, c7_deserialize_u64_string.1 "123" 123 (by decide), by decide,
    c7_deserialize_u64_string.2.1 "1x" (by decide)⟩

/-- C8: `from_bitcoin` multiplies by `10^8` in double arithmetic, rounds to
the nearest integer with ties away from zero, and truncates to `u64`; the
float-mediated rounding gives `from_bitcoin(0.000000495).satoshi() == 50`
(the exact double product rounds to exactly `49.5`, and the tie goes up). -/
theorem c8_float_mediated_rounding :
    from_bitcoin (roundF ((495 : ℚ) / 1000000000)) = 50 := by decide

/-- C9: subtraction undoes addition on valid operands: when the satoshi sum
fits in 64 bits and `b ≤ a`, `(a + b) - b = a`. -/
theorem c9_sub_inverse_of_add (a b : ℕ) (ha : a < 2 ^ 64) (hb : b < 2 ^ 64)
    (hsum : a + b < 2 ^ 64) (hge : b ≤ a) : subQ (addQ a b) b = a := by
  have h64 : (2:ℕ) ^ 64 = 18446744073709551616 := by norm_num
  rw [h64] at ha hb hsum
  unfold addQ subQ
  omega

/-- Witness for C9 at `a = 5`, `b = 3`. -/
theorem c9_witness :
    5 < 2 ^ 64 ∧ 3 < 2 ^ 64 ∧ 5 + 3 < 2 ^ 64 ∧ 3 ≤ 5 ∧ subQ (addQ 5 3) 3 = 5 :=
  ⟨by norm_num, by norm_num, by norm_num, by norm_num,
    c9_sub_inverse_of_add 5 3 (by norm_num) (by norm_num) (by norm_num) (by norm_num)⟩

/-- C10: for every negative finite float input, `from_bitcoin` yields the
zero quantity — the rounded product stays nonpositive (or overflows to
`-∞`), and the saturating `as u64` cast clamps it to `0`. -/
theorem c10_negative_saturates_to_zero (q : ℚ) (hq : q < 0) :
    from_bitcoin (F64.finite q) = from_satoshi 0 := by
  have hp : q * 100000000 < 0 := mul_neg_of_neg_of_pos hq (by norm_num)
  have hr : roundDouble (q * 100000000) ≤ 0 := roundDouble_nonpos _ hp.le
  have hnotbig : ¬ (maxF < roundDouble (q * 100000000)) :=
    not_lt.mpr (hr.trans maxF_pos.le)
  show f64ToU64 (fround (roundF (q * 100000000))) = 0
  unfold roundF
  rw [if_neg hnotbig]
  by_cases hinf : roundDouble (q * 100000000) < -maxF
  · rw [if_pos hinf]
    rfl
  · rw [if_neg hinf]
    have h2 : ((rha (roundDouble (q * 100000000)) : ℤ) : ℚ) ≤ 0 := by
      exact_mod_cast rha_nonpos _ hr
    show f64ToU64 (F64.finite ((rha (roundDouble (q * 100000000)) : ℤ) : ℚ)) = 0
    simp only [f64ToU64]
    rw [if_pos h2]

/-- Witness for C10 at `x = -1.0`. -/
theorem c10_witness :
    (-1 : ℚ) < 0 ∧ from_bitcoin (F64.finite (-1)) = from_satoshi 0 :=
  ⟨by norm_num, c10_negative_saturates_to_zero (-1) (by norm_num)⟩

end ClaimProofs
